import Mathlib

/-!
Verification of the Loki MCP server's query-translation pipeline
(`internal/handlers/loki_protocol.go` and the spec of its helper layer).

The Go handlers in `loki_protocol.go` are embedded as pure Lean functions:
the process environment becomes an explicit `String → String` map, the
backend HTTP call and the result formatter become oracle parameters, and
machine time becomes an explicit `AbsTime` argument.  Helper functions that
the handlers call but whose source lives outside the handler file
(the time parser, URL builders, request-construction and JSON formatter of
`loki.go`) are modelled from the design spec; each such definition carries a
doc comment starting with `Modelled from the spec:`.
-/

set_option maxRecDepth 4000

/-- An absolute point in time, mirroring Go's `time.Time` observables used by
the handlers: whole seconds since the Unix epoch (`Unix()`) plus a sub-second
nanosecond component `0 ≤ nsec < 10^9`. -/
structure AbsTime where
  sec : Int
  nsec : Nat
deriving DecidableEq, Repr

/-- Error taxonomy of the pipeline, mirroring the error wrapping performed by
the handlers (`fmt.Errorf("invalid start time: %v", err)` etc.) and the
spec's error names for the modelled helpers. -/
inductive Err where
  /-- `VerifyAndUnmarshal` failure surfaced unchanged by the handler. -/
  | argumentDecode (msg : String)
  /-- `InvalidTimeExpression` from the time parser. -/
  | invalidTimeExpression (expr : String)
  /-- handler wrapping "invalid start time: %v" -/
  | invalidStartTime (e : Err)
  /-- handler wrapping "invalid end time: %v" -/
  | invalidEndTime (e : Err)
  /-- `MalformedBaseURL` from the URL builders. -/
  | malformedBaseURL (base : String)
  /-- handler wrapping "failed to build query URL: %v" -/
  | buildURL (e : Err)
  /-- handler wrapping "query execution failed: %v" -/
  | execution (e : Err)
  /-- a backend-side failure message carried by the executor oracle -/
  | backend (msg : String)
  /-- handler wrapping "failed to format results: %v" -/
  | formatResults (e : Err)
deriving DecidableEq, Repr

/-- Arguments of the `loki_query` tool (`LokiQueryRequest` in
`loki_protocol.go`); `Limit` is a JSON number (`float64`), modelled as `ℚ`. -/
structure LokiQueryRequest where
  query : String
  url : String
  username : String
  password : String
  token : String
  start : String
  stop : String
  limit : Rat
  org : String
  format : String
deriving DecidableEq, Repr

/-- Arguments of the `loki_label_names` tool (`LokiLabelNamesRequest`). -/
structure LokiLabelNamesRequest where
  url : String
  username : String
  password : String
  token : String
  start : String
  stop : String
  org : String
  format : String
deriving DecidableEq, Repr

/-- Arguments of the `loki_label_values` tool (`LokiLabelValuesRequest`). -/
structure LokiLabelValuesRequest where
  label : String
  url : String
  username : String
  password : String
  token : String
  start : String
  stop : String
  org : String
  format : String
deriving DecidableEq, Repr

/-- One `protocol.TextContent` block. -/
structure TextContent where
  type : String
  text : String
deriving DecidableEq, Repr

/-- `protocol.CallToolResult` as produced by the handlers. -/
structure CallToolResult where
  content : List TextContent
deriving DecidableEq, Repr

/-- Environment-variable name for the backend base URL. -/
def EnvLokiURL : String := "LOKI_URL"

/-- Environment-variable name for the basic-auth username. -/
def EnvLokiUsername : String := "LOKI_USERNAME"

/-- Environment-variable name for the basic-auth password. -/
def EnvLokiPassword : String := "LOKI_PASSWORD"

/-- Environment-variable name for the bearer token. -/
def EnvLokiToken : String := "LOKI_TOKEN"

/-- Environment-variable name for the organization id. -/
def EnvLokiOrgID : String := "LOKI_ORG_ID"

/-- Default backend base URL used when neither argument nor environment
variable provides one. -/
def DefaultLokiURL : String := "http://localhost:3100"

/-- `getEnvOrDefault` from `loki_protocol.go`: returns `value` if non-empty,
else the environment variable `envKey` if non-empty, else `defaultValue`.
The process environment `os.Getenv` is passed explicitly as `env`. -/
def getEnvOrDefault (value envKey defaultValue : String) (env : String → String) : String :=
  if value ≠ "" then value
  else if env envKey ≠ "" then env envKey
  else defaultValue

/-- C1: the configuration resolver prefers the non-empty explicit value, then
the non-empty environment value, then the fallback; in particular
explicit="" with env="E" gives "E", explicit="X" gives "X", and all empty
gives the fallback. -/
theorem getEnvOrDefault_precedence (value envKey defaultValue : String)
    (env : String → String) :
    (value ≠ "" → getEnvOrDefault value envKey defaultValue env = value) ∧
    (value = "" → env envKey ≠ "" →
      getEnvOrDefault value envKey defaultValue env = env envKey) ∧
    (value = "" → env envKey = "" →
      getEnvOrDefault value envKey defaultValue env = defaultValue) := by
  refine ⟨fun h => ?_, fun h1 h2 => ?_, fun h1 h2 => ?_⟩ <;>
    simp [getEnvOrDefault, *]

/-- Concrete instances of C1: explicit="" with env "E" yields "E";
explicit="X" with env "E" yields "X"; all empty yields fallback "F". -/
theorem getEnvOrDefault_precedence_witness :
    getEnvOrDefault "" "K" "F" (fun _ => "E") = "E" ∧
    getEnvOrDefault "X" "K" "F" (fun _ => "E") = "X" ∧
    getEnvOrDefault "" "K" "F" (fun _ => "") = "F" :=
  ⟨(getEnvOrDefault_precedence "" "K" "F" (fun _ => "E")).2.1 rfl (by decide),
   (getEnvOrDefault_precedence "X" "K" "F" (fun _ => "E")).1 (by decide),
   (getEnvOrDefault_precedence "" "K" "F" (fun _ => "")).2.2 rfl rfl⟩

/-- Numeric value of a decimal digit character. -/
def charToDigit (c : Char) : Nat := c.toNat - 48

/-- Value of a list of decimal digit characters, most significant first. -/
def digitsToNat (ds : List Char) : Nat :=
  ds.foldl (fun a c => 10 * a + charToDigit c) 0

/-- Seconds in one unit of the relative-offset grammar:
`s`, `m`, `h`, `d`. -/
def unitSecs (u : Char) : Option Nat :=
  if u = 's' then some 1
  else if u = 'm' then some 60
  else if u = 'h' then some 3600
  else if u = 'd' then some 86400
  else none

/-- Modelled from the spec: grammar 2 of the time-expression resolver
(`parseTime` in the missing `loki.go`): a relative offset `-<integer><unit>`
with unit in {s,m,h,d}; the sign must be `-`.  Returns the offset in
seconds. -/
def parseRelative (s : List Char) : Option Nat :=
  match s with
  | [] => none
  | c :: rest =>
    if c = '-' then
      match rest.getLast? with
      | some u =>
        match unitSecs u with
        | some k =>
          let ds := rest.dropLast
          if ds ≠ [] ∧ ds.all Char.isDigit then some (digitsToNat ds * k) else none
        | none => none
      | none => none
    else none

/-- Reads exactly `k` decimal digits from the front of the list, returning
their value and the rest. -/
def readDigits : Nat → List Char → Option (Nat × List Char)
  | 0, l => some (0, l)
  | k + 1, c :: l =>
    if c.isDigit then
      match readDigits k l with
      | some (v, rest) => some (charToDigit c * 10 ^ k + v, rest)
      | none => none
    else none
  | _ + 1, [] => none

/-- Reads a maximal run of decimal digits (at least one). -/
def readDigitRun : List Char → Option (List Char × List Char)
  | [] => none
  | c :: l =>
    if c.isDigit then
      match readDigitRun l with
      | some (ds, rest) => some (c :: ds, rest)
      | none => some ([c], l)
    else none

/-- Days since the Unix epoch of a civil date (proleptic Gregorian). -/
def daysFromCivil (y : Int) (m d : Nat) : Int :=
  let y' : Int := if m ≤ 2 then y - 1 else y
  let era : Int := (if 0 ≤ y' then y' else y' - 399).fdiv 400
  let yoe : Int := y' - era * 400
  let mp : Int := (Int.ofNat m + 9) % 12
  let doy : Int := (153 * mp + 2).fdiv 5 + Int.ofNat d - 1
  let doe : Int := yoe * 365 + yoe.fdiv 4 - yoe.fdiv 100 + doy
  era * 146097 + doe - 719468

/-- Modelled from the spec: grammar 3 of the time-expression resolver —
an absolute RFC-3339 timestamp `YYYY-MM-DDTHH:MM:SS[.frac][zone]`, with UTC
assumed when no zone is present.  Sub-second fraction digits populate the
nanosecond field. -/
def parseRFC3339 (s : List Char) : Option AbsTime :=
  match readDigits 4 s with
  | none => none
  | some (y, s1) =>
  match s1 with
  | '-' :: s2 =>
    match readDigits 2 s2 with
    | none => none
    | some (mo, s3) =>
    match s3 with
    | '-' :: s4 =>
      match readDigits 2 s4 with
      | none => none
      | some (d, s5) =>
      match s5 with
      | 'T' :: s6 =>
        match readDigits 2 s6 with
        | none => none
        | some (h, s7) =>
        match s7 with
        | ':' :: s8 =>
          match readDigits 2 s8 with
          | none => none
          | some (mi, s9) =>
          match s9 with
          | ':' :: s10 =>
            match readDigits 2 s10 with
            | none => none
            | some (sec, s11) =>
            if mo < 1 ∨ 12 < mo ∨ d < 1 ∨ 31 < d ∨ 23 < h ∨ 59 < mi ∨ 60 < sec then
              none
            else
              let base : Int :=
                daysFromCivil (Int.ofNat y) mo d * 86400 +
                  Int.ofNat (h * 3600 + mi * 60 + sec)
              let (ns, s12) :=
                match s11 with
                | '.' :: s11' =>
                  match readDigitRun s11' with
                  | some (ds, rest) =>
                    (digitsToNat ((ds ++ List.replicate 9 '0').take 9), rest)
                  | none => (0, '.' :: s11')
                | _ => (0, s11)
              match s12 with
              | [] => some ⟨base, ns⟩
              | ['Z'] => some ⟨base, ns⟩
              | sign :: z1 =>
                if sign = '+' ∨ sign = '-' then
                  match readDigits 2 z1 with
                  | none => none
                  | some (zh, z2) =>
                  match z2 with
                  | [':', a, b] =>
                    match readDigits 2 [a, b] with
                    | none => none
                    | some (zm, _) =>
                      if 23 < zh ∨ 59 < zm then none
                      else
                        let off : Int := Int.ofNat (zh * 3600 + zm * 60)
                        some ⟨base - (if sign = '+' then off else -off), ns⟩
                  | _ => none
                else none
          | _ => none
        | _ => none
      | _ => none
    | _ => none
  | _ => none

/-- Modelled from the spec: the time-expression resolver
`resolve(expr, reference)` of §4.1 (`parseTime` in the missing `loki.go`).
Grammars tried in order: the literal `now` (the reference time); a relative
offset `-<integer><unit>` with unit in {s,m,h,d} (reference minus the
offset); an absolute RFC-3339 timestamp.  Anything else fails with
`InvalidTimeExpression`. -/
def parseTime (expr : String) (ref : AbsTime) : Except Err AbsTime :=
  if expr = "now" then .ok ref
  else
    match parseRelative expr.data with
    | some off => .ok ⟨ref.sec - Int.ofNat off, ref.nsec⟩
    | none =>
      match parseRFC3339 expr.data with
      | some t => .ok t
      | none => .error (.invalidTimeExpression expr)

/-- A time expression matches the resolver's accepted grammar when it is the
literal `now`, a well-formed relative offset, or a well-formed RFC-3339
timestamp. -/
def matchesTimeGrammar (expr : String) : Prop :=
  expr = "now" ∨ (∃ ds u, expr.data = '-' :: ds ++ [u] ∧ ds ≠ [] ∧
    (∀ c ∈ ds, c.isDigit) ∧ (unitSecs u).isSome) ∨
    (parseRFC3339 expr.data).isSome

/-- Truncation toward zero of a rational, mirroring Go's `int(float64)`
conversion. -/
def ratTrunc (q : Rat) : Int := if 0 ≤ q then ⌊q⌋ else ⌈q⌉

/-- The limit-resolution step of the query handler (lines 81 and 99–101 of
`loki_protocol.go`): an explicitly supplied limit is applied, truncated
toward zero, only when positive; otherwise the default 100 is used. -/
def resolveLimit (l : Rat) : Int := if l > 0 then ratTrunc l else 100

/-- The start/end resolution step shared by the three handlers
(lines 83–97, 149–163 and 211–225 of `loki_protocol.go`): an empty argument
keeps the default bound `d` without invoking the resolver `p`; a non-empty
argument is resolved and truncated to whole Unix seconds (`.Unix()`), and a
resolver failure is propagated. -/
def resolveBound (p : String → AbsTime → Except Err AbsTime)
    (arg : String) (ref : AbsTime) (d : Int) : Except Err Int :=
  if arg = "" then .ok d
  else
    match p arg ref with
    | .ok t => .ok t.sec
    | .error e => .error e

/-- Hexadecimal digit characters (uppercase), for percent-encoding. -/
def hexDigitChar (n : Nat) : Char :=
  if n = 0 then '0' else if n = 1 then '1' else if n = 2 then '2'
  else if n = 3 then '3' else if n = 4 then '4' else if n = 5 then '5'
  else if n = 6 then '6' else if n = 7 then '7' else if n = 8 then '8'
  else if n = 9 then '9' else if n = 10 then 'A' else if n = 11 then 'B'
  else if n = 12 then 'C' else if n = 13 then 'D' else if n = 14 then 'E'
  else 'F'

/-- Whether a byte is unreserved under standard URL query encoding. -/
def isUnreservedByte (b : Nat) : Bool :=
  (48 ≤ b && b ≤ 57) || (65 ≤ b && b ≤ 90) || (97 ≤ b && b ≤ 122) ||
    b == 45 || b == 95 || b == 46 || b == 126

/-- The UTF-8 bytes of a Unicode code point. -/
def utf8Bytes (n : Nat) : List Nat :=
  if n < 128 then [n]
  else if n < 2048 then [192 + n / 64, 128 + n % 64]
  else if n < 65536 then
    [224 + n / 4096, 128 + (n / 64) % 64, 128 + n % 64]
  else
    [240 + n / 262144, 128 + (n / 4096) % 64, 128 + (n / 64) % 64,
      128 + n % 64]

/-- Percent-encodes one UTF-8 byte. -/
def encodeByte (b : Nat) : String :=
  if isUnreservedByte b then String.singleton (Char.ofNat b)
  else String.mk ['%', hexDigitChar (b / 16), hexDigitChar (b % 16)]

/-- Modelled from the spec: standard URL query/path percent-encoding of a
string over its UTF-8 bytes (§4.3: all reserved characters in the LogQL
query string and label name must be percent-encoded). -/
def urlEncode (s : String) : String :=
  s.data.foldr
    (fun c acc => (utf8Bytes c.toNat).foldr (fun b a => encodeByte b ++ a) acc)
    ""

/-- Modelled from the spec: a base URL is considered parseable when it has no
ASCII control characters (`MalformedBaseURL` otherwise, §4.3). -/
def validBaseURL (s : String) : Bool :=
  s.data.all fun c => 32 ≤ c.toNat

/-- Modelled from the spec: `buildLokiQueryURL` of the missing `loki.go`
(§4.3): path `/loki/api/v1/query_range`, query parameters `query` (percent-
encoded), `start`/`end` (Unix timestamps in nanoseconds: the seconds value is
multiplied by 1e9) and `limit`; fails with `MalformedBaseURL` on an
unparseable base. -/
def buildLokiQueryURL (base query : String) (start stop : Int) (limit : Int) :
    Except Err String :=
  if validBaseURL base then
    .ok (base ++ "/loki/api/v1/query_range?query=" ++ urlEncode query ++
      "&" ++ ("start=" ++ toString (start * 1000000000)) ++
      "&" ++ ("end=" ++ toString (stop * 1000000000)) ++
      "&limit=" ++ toString limit)
  else .error (.malformedBaseURL base)

/-- Modelled from the spec: `buildLokiLabelsURL` of the missing `loki.go`
(§4.3): path `/loki/api/v1/labels` with nanosecond `start`/`end`. -/
def buildLokiLabelsURL (base : String) (start stop : Int) : Except Err String :=
  if validBaseURL base then
    .ok (base ++ "/loki/api/v1/labels?" ++
      ("start=" ++ toString (start * 1000000000)) ++
      "&" ++ ("end=" ++ toString (stop * 1000000000)))
  else .error (.malformedBaseURL base)

/-- Modelled from the spec: `buildLokiLabelValuesURL` of the missing
`loki.go` (§4.3): path `/loki/api/v1/label/{label}/values` with the label
path-escaped and nanosecond `start`/`end`. -/
def buildLokiLabelValuesURL (base label : String) (start stop : Int) :
    Except Err String :=
  if validBaseURL base then
    .ok (base ++ "/loki/api/v1/label/" ++ urlEncode label ++ "/values?" ++
      ("start=" ++ toString (start * 1000000000)) ++
      "&" ++ ("end=" ++ toString (stop * 1000000000)))
  else .error (.malformedBaseURL base)

/-- Authorization header variants of the outbound backend request. -/
inductive AuthHeader where
  | bearer (token : String)
  | basic (username password : String)
deriving DecidableEq, Repr

/-- Observable header state of the outbound backend HTTP GET request. -/
structure LokiHttpRequest where
  url : String
  authorization : Option AuthHeader
  orgHeader : Option String
deriving DecidableEq, Repr

/-- Modelled from the spec: request construction inside the backend query
executor of the missing `loki.go` (§4.4): if `token` is non-empty it sets
bearer-token authorization; else if `username` is non-empty it sets basic
authentication with `username`/`password`; else no authorization header.
A non-empty `orgID` sets the multi-tenancy scope header. -/
def newLokiRequest (url username password token orgID : String) :
    LokiHttpRequest :=
  { url := url
    authorization :=
      if token ≠ "" then some (.bearer token)
      else if username ≠ "" then some (.basic username password)
      else none
    orgHeader := if orgID ≠ "" then some orgID else none }

/-- `HandleLokiQueryProtocol` from `loki_protocol.go`, embedded as a pure
function.  `decoded` is the outcome of `protocol.VerifyAndUnmarshal`, `env`
the process environment, `now` the current time, `p` the time-expression
resolver, `exec` the backend query executor
(url, username, password, token, orgID) and `fmtF` the result formatter
(result, format); the executor and formatter live outside the handler file
and are passed as oracles. -/
def HandleLokiQueryProtocol {ρ : Type}
    (decoded : Except Err LokiQueryRequest) (env : String → String)
    (now : AbsTime) (p : String → AbsTime → Except Err AbsTime)
    (exec : String → String → String → String → String → Except Err ρ)
    (fmtF : ρ → String → Except Err String) : Except Err CallToolResult :=
  match decoded with
  | .error e => .error e
  | .ok req =>
    let lokiURL := getEnvOrDefault req.url EnvLokiURL DefaultLokiURL env
    let username := getEnvOrDefault req.username EnvLokiUsername "" env
    let password := getEnvOrDefault req.password EnvLokiPassword "" env
    let token := getEnvOrDefault req.token EnvLokiToken "" env
    let orgID := getEnvOrDefault req.org EnvLokiOrgID "" env
    match resolveBound p req.start now (now.sec - 3600) with
    | .error e => .error (.invalidStartTime e)
    | .ok start =>
    match resolveBound p req.stop now now.sec with
    | .error e => .error (.invalidEndTime e)
    | .ok stop =>
    let limit : Int := resolveLimit req.limit
    let format := if req.format ≠ "" then req.format else "raw"
    match buildLokiQueryURL lokiURL req.query start stop limit with
    | .error e => .error (.buildURL e)
    | .ok queryURL =>
    match exec queryURL username password token orgID with
    | .error e => .error (.execution e)
    | .ok result =>
    match fmtF result format with
    | .error e => .error (.formatResults e)
    | .ok formattedResult =>
      .ok { content := [{ type := "text", text := formattedResult }] }

/-- `HandleLokiLabelNamesProtocol` from `loki_protocol.go`, embedded as a
pure function with the same oracle parameters as the query handler. -/
def HandleLokiLabelNamesProtocol {ρ : Type}
    (decoded : Except Err LokiLabelNamesRequest) (env : String → String)
    (now : AbsTime) (p : String → AbsTime → Except Err AbsTime)
    (exec : String → String → String → String → String → Except Err ρ)
    (fmtF : ρ → String → Except Err String) : Except Err CallToolResult :=
  match decoded with
  | .error e => .error e
  | .ok req =>
    let lokiURL := getEnvOrDefault req.url EnvLokiURL DefaultLokiURL env
    let username := getEnvOrDefault req.username EnvLokiUsername "" env
    let password := getEnvOrDefault req.password EnvLokiPassword "" env
    let token := getEnvOrDefault req.token EnvLokiToken "" env
    let orgID := getEnvOrDefault req.org EnvLokiOrgID "" env
    match resolveBound p req.start now (now.sec - 3600) with
    | .error e => .error (.invalidStartTime e)
    | .ok start =>
    match resolveBound p req.stop now now.sec with
    | .error e => .error (.invalidEndTime e)
    | .ok stop =>
    let format := if req.format ≠ "" then req.format else "raw"
    match buildLokiLabelsURL lokiURL start stop with
    | .error e => .error (.buildURL e)
    | .ok labelsURL =>
    match exec labelsURL username password token orgID with
    | .error e => .error (.execution e)
    | .ok result =>
    match fmtF result format with
    | .error e => .error (.formatResults e)
    | .ok formattedResult =>
      .ok { content := [{ type := "text", text := formattedResult }] }

/-- `HandleLokiLabelValuesProtocol` from `loki_protocol.go`, embedded as a
pure function with the same oracle parameters as the query handler. -/
def HandleLokiLabelValuesProtocol {ρ : Type}
    (decoded : Except Err LokiLabelValuesRequest) (env : String → String)
    (now : AbsTime) (p : String → AbsTime → Except Err AbsTime)
    (exec : String → String → String → String → String → Except Err ρ)
    (fmtF : ρ → String → Except Err String) : Except Err CallToolResult :=
  match decoded with
  | .error e => .error e
  | .ok req =>
    let lokiURL := getEnvOrDefault req.url EnvLokiURL DefaultLokiURL env
    let username := getEnvOrDefault req.username EnvLokiUsername "" env
    let password := getEnvOrDefault req.password EnvLokiPassword "" env
    let token := getEnvOrDefault req.token EnvLokiToken "" env
    let orgID := getEnvOrDefault req.org EnvLokiOrgID "" env
    match resolveBound p req.start now (now.sec - 3600) with
    | .error e => .error (.invalidStartTime e)
    | .ok start =>
    match resolveBound p req.stop now now.sec with
    | .error e => .error (.invalidEndTime e)
    | .ok stop =>
    let format := if req.format ≠ "" then req.format else "raw"
    match buildLokiLabelValuesURL lokiURL req.label start stop with
    | .error e => .error (.buildURL e)
    | .ok labelValuesURL =>
    match exec labelValuesURL username password token orgID with
    | .error e => .error (.execution e)
    | .ok result =>
    match fmtF result format with
    | .error e => .error (.formatResults e)
    | .ok formattedResult =>
      .ok { content := [{ type := "text", text := formattedResult }] }

/-- One stream entry of a decoded backend query result (§3 of the spec):
a label mapping and an ordered sequence of `[timestamp, line]` pairs. -/
structure StreamEntry where
  stream : List (String × String)
  values : List (String × String)
deriving DecidableEq, Repr

/-- A decoded backend query result (§3): a status field and the ordered
result set of stream entries. -/
structure BackendQueryResult where
  status : String
  result : List StreamEntry
deriving DecidableEq, Repr

/-- JSON escaping of one character: quote, backslash and the common control
characters are escaped; everything else is emitted verbatim. -/
def escapeChar (c : Char) : List Char :=
  if c = '"' then ['\\', '"']
  else if c = '\\' then ['\\', '\\']
  else if c = '\n' then ['\\', 'n']
  else if c = '\t' then ['\\', 't']
  else if c = '\r' then ['\\', 'r']
  else [c]

/-- JSON escaping of a character list. -/
def escList : List Char → List Char
  | [] => []
  | c :: cs => escapeChar c ++ escList cs

/-- A JSON string literal (opening quote, escaped contents, closing quote). -/
def encStrL (s : String) : List Char :=
  '"' :: (escList s.data ++ ['"'])

/-- A JSON `"key":"value"` member with string value. -/
def encKV (kv : String × String) : List Char :=
  encStrL kv.1 ++ ':' :: encKV2 kv.2
where
  encKV2 (v : String) : List Char := encStrL v

/-- A JSON two-element string array `["t","l"]` (one log value pair). -/
def encPair (pr : String × String) : List Char :=
  '[' :: (encStrL pr.1 ++ ',' :: (encStrL pr.2 ++ [']']))

/-- Comma-separated tail of a JSON sequence. -/
def encSepTail (f : α → List Char) : List α → List Char
  | [] => []
  | x :: xs => ',' :: (f x ++ encSepTail f xs)

/-- Comma-separated JSON sequence contents. -/
def encSep (f : α → List Char) : List α → List Char
  | [] => []
  | x :: xs => f x ++ encSepTail f xs

/-- A JSON object of string members. -/
def encObj (kvs : List (String × String)) : List Char :=
  '{' :: (encSep encKV kvs ++ ['}'])

/-- A JSON array with element encoder `f`. -/
def encArr (f : α → List Char) (xs : List α) : List Char :=
  '[' :: (encSep f xs ++ [']'])

/-- One stream entry as compact JSON:
`{"stream":{...},"values":[[...],...]}`. -/
def encEntry (e : StreamEntry) : List Char :=
  '{' :: (encStrL "stream" ++ ':' :: (encObj e.stream ++
    ',' :: (encStrL "values" ++ ':' :: (encArr encPair e.values ++ ['}']))))

/-- The character stream of a compact-JSON backend query result. -/
def encTopList (r : BackendQueryResult) : List Char :=
  '{' :: (encStrL "status" ++ ':' :: (encStrL r.status ++
    ',' :: (encStrL "result" ++ ':' :: (encArr encEntry r.result ++ ['}']))))

/-- Modelled from the spec: the `json` output mode of the result formatter
(`formatLokiResults` in the missing `loki.go`, §4.5) — compact single-line
JSON of the decoded backend query result. -/
def formatLokiResultsJson (r : BackendQueryResult) : String :=
  String.mk (encTopList r)

/-- JSON string-literal body parser: consumes escaped characters until the
closing quote, accumulating in reverse. -/
def pStrAux : List Char → List Char → Option (String × List Char)
  | _, [] => none
  | acc, c :: rest =>
    if c = '"' then some (String.mk acc.reverse, rest)
    else if c = '\\' then
      match rest with
      | [] => none
      | e :: rest2 =>
        if e = '"' then pStrAux ('"' :: acc) rest2
        else if e = '\\' then pStrAux ('\\' :: acc) rest2
        else if e = 'n' then pStrAux ('\n' :: acc) rest2
        else if e = 't' then pStrAux ('\t' :: acc) rest2
        else if e = 'r' then pStrAux ('\r' :: acc) rest2
        else none
    else pStrAux (c :: acc) rest

/-- JSON string literal parser. -/
def pStr : List Char → Option (String × List Char)
  | [] => none
  | c :: rest => if c = '"' then pStrAux [] rest else none

/-- Expects the single character `c` at the front of the input. -/
def pChar (c : Char) : List Char → Option (List Char)
  | [] => none
  | d :: rest => if d = c then some rest else none

/-- Expects the exact JSON string literal for `s` at the front. -/
def pKey (s : String) (l : List Char) : Option (List Char) :=
  match pStr l with
  | some (k, rest) => if k = s then some rest else none
  | none => none

/-- A JSON `"key":"value"` member parser. -/
def pKV (l : List Char) : Option ((String × String) × List Char) :=
  (pStr l).bind fun (k, l1) =>
  (pChar ':' l1).bind fun l2 =>
  (pStr l2).map fun (v, l3) => ((k, v), l3)

/-- A `["t","l"]` pair parser. -/
def pPair (l : List Char) : Option ((String × String) × List Char) :=
  (pChar '[' l).bind fun l1 =>
  (pStr l1).bind fun (t, l2) =>
  (pChar ',' l2).bind fun l3 =>
  (pStr l3).bind fun (v, l4) =>
  (pChar ']' l4).map fun l5 => ((t, v), l5)

/-- Parses the `, elem , elem … close` tail of a JSON sequence; `fuel` bounds
the number of remaining elements. -/
def pSepRest (pe : List Char → Option (α × List Char)) (close : Char) :
    Nat → List α → List Char → Option (List α × List Char)
  | _, _, [] => none
  | fuel, acc, c :: rest =>
    if c = close then some (acc.reverse, rest)
    else if c = ',' then
      match fuel with
      | 0 => none
      | fuel' + 1 =>
        match pe rest with
        | some (x, rest2) => pSepRest pe close fuel' (x :: acc) rest2
        | none => none
    else none

/-- Parses the contents of a JSON sequence up to and including `close`
(the opening bracket having been consumed by the caller). -/
def pSepList (pe : List Char → Option (α × List Char)) (close : Char)
    (fuel : Nat) (l : List Char) : Option (List α × List Char) :=
  match l with
  | [] => none
  | c :: _ =>
    if c = close then some ([], l.tail)
    else
      match pe l with
      | some (x, rest2) => pSepRest pe close fuel [x] rest2
      | none => none

/-- A JSON object of string members, brackets included. -/
def pObj (fuel : Nat) (l : List Char) :
    Option (List (String × String) × List Char) :=
  (pChar '{' l).bind fun l1 => pSepList pKV '}' fuel l1

/-- The `values` array of a stream entry, brackets included. -/
def pValuesArr (fuel : Nat) (l : List Char) :
    Option (List (String × String) × List Char) :=
  (pChar '[' l).bind fun l1 => pSepList pPair ']' fuel l1

/-- One stream entry, `{"stream":{...},"values":[...]}`. -/
def pEntry (fuel : Nat) (l : List Char) : Option (StreamEntry × List Char) :=
  (pChar '{' l).bind fun l1 =>
  (pKey "stream" l1).bind fun l2 =>
  (pChar ':' l2).bind fun l3 =>
  (pObj fuel l3).bind fun (kvs, l4) =>
  (pChar ',' l4).bind fun l5 =>
  (pKey "values" l5).bind fun l6 =>
  (pChar ':' l6).bind fun l7 =>
  (pValuesArr fuel l7).bind fun (vs, l8) =>
  (pChar '}' l8).map fun l9 => (⟨kvs, vs⟩, l9)

/-- A whole compact-JSON backend query result object,
`{"status":...,"result":[...]}`. -/
def pResultTop (fuel : Nat) (l : List Char) :
    Option (BackendQueryResult × List Char) :=
  (pChar '{' l).bind fun l1 =>
  (pKey "status" l1).bind fun l2 =>
  (pChar ':' l2).bind fun l3 =>
  (pStr l3).bind fun (st, l4) =>
  (pChar ',' l4).bind fun l5 =>
  (pKey "result" l5).bind fun l6 =>
  (pChar ':' l6).bind fun l7 =>
  (pChar '[' l7).bind fun l8 =>
  (pSepList (pEntry fuel) ']' fuel l8).bind fun (es, l9) =>
  (pChar '}' l9).map fun l10 => (BackendQueryResult.mk st es, l10)

/-- Parses a compact-JSON backend query result back into its decoded
structure; the whole input must be consumed. -/
def decodeLokiResultsJson (s : String) : Option BackendQueryResult :=
  match pResultTop s.data.length s.data with
  | some (res, []) => some res
  | _ => none

theorem charToDigit_digitChar : ∀ d < 10, charToDigit (Nat.digitChar d) = d := by
  decide

theorem isDigit_digitChar : ∀ d < 10, (Nat.digitChar d).isDigit = true := by
  decide

theorem toDigitsCore_eq_digits :
    ∀ (fuel n : ℕ) (ds : List Char), 0 < n → n < 10 ^ fuel →
      Nat.toDigitsCore 10 fuel n ds =
        ((Nat.digits 10 n).map Nat.digitChar).reverse ++ ds := by
  intro fuel
  induction fuel with
  | zero => intro n ds hn hlt; simp at hlt; omega
  | succ f ih =>
    intro n ds hn hlt
    rw [Nat.digits_def' (b := 10) (by norm_num) hn]
    by_cases h0 : n / 10 = 0
    · simp only [Nat.toDigitsCore, h0, if_pos rfl, h0, Nat.digits_zero]
      simp
    · simp only [Nat.toDigitsCore, if_neg h0]
      rw [ih (n / 10) _ (Nat.pos_of_ne_zero h0)
        ((Nat.div_lt_iff_lt_mul (by norm_num)).mpr (by rw [← pow_succ]; exact hlt))]
      simp

theorem repr_data_eq (n : ℕ) (hn : 0 < n) :
    (Nat.repr n).data = ((Nat.digits 10 n).map Nat.digitChar).reverse := by
  have hd : (Nat.repr n).data = Nat.toDigitsCore 10 (n + 1) n [] := rfl
  rw [hd, toDigitsCore_eq_digits (n + 1) n [] hn
    (Nat.lt_of_lt_of_le (Nat.lt_pow_self (by norm_num) n)
      (Nat.pow_le_pow_right (by norm_num) (Nat.le_succ n)))]
  simp

theorem foldl_horner (L : List ℕ) :
    ∀ a : ℕ, List.foldl (fun a d => 10 * a + d) a L.reverse =
      a * 10 ^ L.length + Nat.ofDigits 10 L := by
  induction L with
  | nil => intro a; simp [Nat.ofDigits]
  | cons d T ih =>
    intro a
    rw [List.reverse_cons, List.foldl_append]
    simp only [List.foldl_cons, List.foldl_nil, ih, Nat.ofDigits_cons,
      List.length_cons]
    ring

theorem digitsToNat_repr (n : ℕ) : digitsToNat (Nat.repr n).data = n := by
  rcases Nat.eq_zero_or_pos n with h | h
  · subst h; rfl
  · rw [repr_data_eq n h]
    unfold digitsToNat
    rw [← List.map_reverse, List.foldl_map,
      List.foldl_ext _ (fun a d => 10 * a + d) 0
        (fun a d hd => by
          rw [charToDigit_digitChar d
            (Nat.digits_lt_base (by norm_num) (List.mem_reverse.mp hd))]),
      foldl_horner]
    simpa using Nat.ofDigits_digits 10 n

theorem repr_all_isDigit (n : ℕ) : ∀ c ∈ (Nat.repr n).data, c.isDigit = true := by
  rcases Nat.eq_zero_or_pos n with h | h
  · subst h; decide
  · rw [repr_data_eq n h]
    intro c hc
    rw [List.mem_reverse, List.mem_map] at hc
    obtain ⟨d, hd, rfl⟩ := hc
    exact isDigit_digitChar d (Nat.digits_lt_base (by norm_num) hd)

theorem repr_ne_nil (n : ℕ) : (Nat.repr n).data ≠ [] := by
  rcases Nat.eq_zero_or_pos n with h | h
  · subst h; decide
  · rw [repr_data_eq n h]
    simp [Nat.digits_ne_nil_iff_ne_zero.mpr (Nat.pos_iff_ne_zero.mp h)]

theorem parseRelative_repr (n : ℕ) (u : Char) (k : ℕ)
    (hu : unitSecs u = some k) :
    parseRelative ('-' :: ((Nat.repr n).data ++ [u])) = some (n * k) := by
  unfold parseRelative
  simp only [if_pos rfl, List.getLast?_concat, hu, List.dropLast_concat]
  have h1 := repr_ne_nil n
  have h2 := List.all_eq_true.mpr (repr_all_isDigit n)
  simp [h1, h2, digitsToNat_repr]

theorem parseRelative_sound {l : List Char} {k : ℕ}
    (h : parseRelative l = some k) :
    ∃ ds u, l = '-' :: (ds ++ [u]) ∧ ds ≠ [] ∧
      (∀ c ∈ ds, c.isDigit = true) ∧ (unitSecs u).isSome = true := by
  match l with
  | [] => simp [parseRelative] at h
  | c :: rest =>
    simp only [parseRelative] at h
    by_cases hc : c = '-'
    · rw [if_pos hc] at h
      cases hg : rest.getLast? with
      | none => rw [hg] at h; simp at h
      | some u =>
        rw [hg] at h
        simp only [] at h
        cases hu : unitSecs u with
        | none => rw [hu] at h; simp at h
        | some kk =>
          rw [hu] at h
          simp only [] at h
          by_cases hcond : rest.dropLast ≠ [] ∧ rest.dropLast.all Char.isDigit = true
          · obtain ⟨ys, hys⟩ := List.getLast?_eq_some_iff.mp hg
            refine ⟨rest.dropLast, u, ?_, hcond.1, ?_, by rw [hu]; rfl⟩
            · rw [hc, hys, List.dropLast_concat]
            · intro ch hch
              exact List.all_eq_true.mp hcond.2 ch hch
          · rw [if_neg hcond] at h; simp at h
    · rw [if_neg hc] at h; simp at h

/-- C4: the time-expression resolver returns the reference time on `now`,
returns `T` minus `n` times the unit in seconds on every relative expression
`-<n><unit>` with unit in {s,m,h,d}, and fails with `InvalidTimeExpression`
on every input matching none of the accepted grammars — for example `5m`
(missing the leading `-`) and `tomorrow`. -/
theorem parseTime_resolver_spec :
    (∀ T : AbsTime, parseTime "now" T = .ok T) ∧
    (∀ (T : AbsTime) (n : ℕ), 0 < n → ∀ (u : Char) (k : ℕ),
      unitSecs u = some k →
      parseTime ("-" ++ Nat.repr n ++ String.singleton u) T =
        .ok ⟨T.sec - (n * k : ℕ), T.nsec⟩) ∧
    (∀ (expr : String) (T : AbsTime), ¬ matchesTimeGrammar expr →
      parseTime expr T = .error (.invalidTimeExpression expr)) ∧
    (∀ T : AbsTime, parseTime "5m" T = .error (.invalidTimeExpression "5m") ∧
      parseTime "tomorrow" T = .error (.invalidTimeExpression "tomorrow")) := by
  refine ⟨fun T => rfl, ?_, ?_, fun T => ⟨rfl, rfl⟩⟩
  · intro T n hn u k hu
    have hdata : ("-" ++ Nat.repr n ++ String.singleton u).data =
        '-' :: ((Nat.repr n).data ++ [u]) := by
      simp [String.data_append]
    have hnow : ¬ ("-" ++ Nat.repr n ++ String.singleton u) = "now" := by
      intro he
      have := congrArg String.data he
      rw [hdata] at this
      simp at this
    unfold parseTime
    rw [if_neg hnow, hdata, parseRelative_repr n u k hu]
    rfl
  · intro expr T hg
    unfold parseTime
    rw [if_neg (fun he => hg (Or.inl he))]
    cases hrel : parseRelative expr.data with
    | some k =>
      exfalso
      obtain ⟨ds, u, hd, hne, hdig, hsome⟩ := parseRelative_sound hrel
      exact hg (Or.inr (Or.inl ⟨ds, u, by simpa using hd, hne, hdig, hsome⟩))
    | none =>
      cases hrfc : parseRFC3339 expr.data with
      | some t => exact absurd (Or.inr (Or.inr (by simp [hrfc]))) hg
      | none => rfl

/-- Concrete instances of C4: `-5m` resolves to 300 seconds before the
reference, and the ungrammatical `x5m` is rejected. -/
theorem parseTime_resolver_spec_witness :
    parseTime ("-" ++ Nat.repr 5 ++ String.singleton 'm') ⟨1000, 7⟩ =
      .ok ⟨(1000 : Int) - (5 * 60 : ℕ), 7⟩ ∧
    parseTime "x5m" ⟨1000, 7⟩ = .error (.invalidTimeExpression "x5m") :=
  ⟨parseTime_resolver_spec.2.1 ⟨1000, 7⟩ 5 (by decide) 'm' 60 rfl,
   parseTime_resolver_spec.2.2.1 "x5m" ⟨1000, 7⟩ (by
    rintro (h | ⟨ds, u, hd, -, -, -⟩ | h)
    · exact absurd h (by decide)
    · have : ('x' : Char) = '-' := by
        have hh := congrArg (fun l => l.headI) hd
        simp at hh
      exact absurd this (by decide)
    · exact absurd h (by decide))⟩

/-- C2: for every operation, an absent (empty) start or end argument keeps
the default bound without ever invoking the time-expression resolver: the
result of each handler is the same for every resolver (including an
always-failing one), and the bound resolution step returns the default —
the handlers supply `now − 3600` for start and `now` for end, so the
default range is `[now − 1h, now]`. -/
theorem default_range_when_unspecified :
    (∀ (p : String → AbsTime → Except Err AbsTime) (now : AbsTime) (d : Int),
      resolveBound p "" now d = .ok d) ∧
    (∀ (ρ : Type) (req : LokiQueryRequest) (env : String → String)
      (now : AbsTime) (p p' : String → AbsTime → Except Err AbsTime)
      (exec : String → String → String → String → String → Except Err ρ)
      (fmtF : ρ → String → Except Err String),
      req.start = "" → req.stop = "" →
      HandleLokiQueryProtocol (.ok req) env now p exec fmtF =
        HandleLokiQueryProtocol (.ok req) env now p' exec fmtF) ∧
    (∀ (ρ : Type) (req : LokiLabelNamesRequest) (env : String → String)
      (now : AbsTime) (p p' : String → AbsTime → Except Err AbsTime)
      (exec : String → String → String → String → String → Except Err ρ)
      (fmtF : ρ → String → Except Err String),
      req.start = "" → req.stop = "" →
      HandleLokiLabelNamesProtocol (.ok req) env now p exec fmtF =
        HandleLokiLabelNamesProtocol (.ok req) env now p' exec fmtF) ∧
    (∀ (ρ : Type) (req : LokiLabelValuesRequest) (env : String → String)
      (now : AbsTime) (p p' : String → AbsTime → Except Err AbsTime)
      (exec : String → String → String → String → String → Except Err ρ)
      (fmtF : ρ → String → Except Err String),
      req.start = "" → req.stop = "" →
      HandleLokiLabelValuesProtocol (.ok req) env now p exec fmtF =
        HandleLokiLabelValuesProtocol (.ok req) env now p' exec fmtF) := by
  refine ⟨fun p now d => rfl, ?_, ?_, ?_⟩ <;>
  · intro ρ req env now p p' exec fmtF hs he
    simp [HandleLokiQueryProtocol, HandleLokiLabelNamesProtocol,
      HandleLokiLabelValuesProtocol, resolveBound, hs, he]

/-- Concrete instance of C2: with empty start/end and two different
resolvers (one always failing) the query handler gives the same result. -/
theorem default_range_when_unspecified_witness :
    HandleLokiQueryProtocol (ρ := Nat)
      (.ok ⟨"q", "", "", "", "", "", "", 0, "", ""⟩) (fun _ => "") ⟨5000, 0⟩
      parseTime (fun _ _ _ _ _ => .ok 7) (fun _ _ => .ok "out") =
    HandleLokiQueryProtocol
      (.ok ⟨"q", "", "", "", "", "", "", 0, "", ""⟩) (fun _ => "") ⟨5000, 0⟩
      (fun e _ => .error (.invalidTimeExpression e))
      (fun _ _ _ _ _ => .ok 7) (fun _ _ => .ok "out") :=
  default_range_when_unspecified.2.1 Nat
    ⟨"q", "", "", "", "", "", "", 0, "", ""⟩ (fun _ => "") ⟨5000, 0⟩
    parseTime (fun e _ => .error (.invalidTimeExpression e))
    (fun _ _ _ _ _ => .ok 7) (fun _ _ => .ok "out") rfl rfl

/-- C3: for every operation, a non-empty start (or end) argument rejected by
the time-expression resolver makes the handler return the corresponding
tool-invocation error, for every backend executor and formatter alike — so
the default range is never silently substituted and no backend call can
influence the outcome. -/
theorem invalid_time_is_hard_error :
    (∀ (ρ : Type) (req : LokiQueryRequest) (env : String → String)
      (now : AbsTime) (e : Err)
      (exec : String → String → String → String → String → Except Err ρ)
      (fmtF : ρ → String → Except Err String),
      req.start ≠ "" → parseTime req.start now = .error e →
      HandleLokiQueryProtocol (.ok req) env now parseTime exec fmtF =
        .error (.invalidStartTime e)) ∧
    (∀ (ρ : Type) (req : LokiQueryRequest) (env : String → String)
      (now : AbsTime) (e : Err) (s : Int)
      (exec : String → String → String → String → String → Except Err ρ)
      (fmtF : ρ → String → Except Err String),
      resolveBound parseTime req.start now (now.sec - 3600) = .ok s →
      req.stop ≠ "" → parseTime req.stop now = .error e →
      HandleLokiQueryProtocol (.ok req) env now parseTime exec fmtF =
        .error (.invalidEndTime e)) ∧
    (∀ (ρ : Type) (req : LokiLabelNamesRequest) (env : String → String)
      (now : AbsTime) (e : Err)
      (exec : String → String → String → String → String → Except Err ρ)
      (fmtF : ρ → String → Except Err String),
      req.start ≠ "" → parseTime req.start now = .error e →
      HandleLokiLabelNamesProtocol (.ok req) env now parseTime exec fmtF =
        .error (.invalidStartTime e)) ∧
    (∀ (ρ : Type) (req : LokiLabelNamesRequest) (env : String → String)
      (now : AbsTime) (e : Err) (s : Int)
      (exec : String → String → String → String → String → Except Err ρ)
      (fmtF : ρ → String → Except Err String),
      resolveBound parseTime req.start now (now.sec - 3600) = .ok s →
      req.stop ≠ "" → parseTime req.stop now = .error e →
      HandleLokiLabelNamesProtocol (.ok req) env now parseTime exec fmtF =
        .error (.invalidEndTime e)) ∧
    (∀ (ρ : Type) (req : LokiLabelValuesRequest) (env : String → String)
      (now : AbsTime) (e : Err)
      (exec : String → String → String → String → String → Except Err ρ)
      (fmtF : ρ → String → Except Err String),
      req.start ≠ "" → parseTime req.start now = .error e →
      HandleLokiLabelValuesProtocol (.ok req) env now parseTime exec fmtF =
        .error (.invalidStartTime e)) ∧
    (∀ (ρ : Type) (req : LokiLabelValuesRequest) (env : String → String)
      (now : AbsTime) (e : Err) (s : Int)
      (exec : String → String → String → String → String → Except Err ρ)
      (fmtF : ρ → String → Except Err String),
      resolveBound parseTime req.start now (now.sec - 3600) = .ok s →
      req.stop ≠ "" → parseTime req.stop now = .error e →
      HandleLokiLabelValuesProtocol (.ok req) env now parseTime exec fmtF =
        .error (.invalidEndTime e)) := by
  refine ⟨?_, ?_, ?_, ?_, ?_, ?_⟩
  · intro ρ req env now e exec fmtF hne hp
    simp [HandleLokiQueryProtocol, resolveBound, hne, hp]
  · intro ρ req env now e s exec fmtF hok hne hp
    simp only [HandleLokiQueryProtocol]
    rw [hok]
    simp [resolveBound, hne, hp]
  · intro ρ req env now e exec fmtF hne hp
    simp [HandleLokiLabelNamesProtocol, resolveBound, hne, hp]
  · intro ρ req env now e s exec fmtF hok hne hp
    simp only [HandleLokiLabelNamesProtocol]
    rw [hok]
    simp [resolveBound, hne, hp]
  · intro ρ req env now e exec fmtF hne hp
    simp [HandleLokiLabelValuesProtocol, resolveBound, hne, hp]
  · intro ρ req env now e s exec fmtF hok hne hp
    simp only [HandleLokiLabelValuesProtocol]
    rw [hok]
    simp [resolveBound, hne, hp]

/-- Concrete instance of C3: start `tomorrow` is rejected and surfaced as an
invalid-start-time error. -/
theorem invalid_time_is_hard_error_witness :
    HandleLokiQueryProtocol (ρ := Nat)
      (.ok ⟨"q", "", "", "", "", "tomorrow", "", 0, "", ""⟩) (fun _ => "")
      ⟨5000, 0⟩ parseTime (fun _ _ _ _ _ => .ok 7) (fun _ _ => .ok "out") =
      .error (.invalidStartTime (.invalidTimeExpression "tomorrow")) :=
  invalid_time_is_hard_error.1 Nat
    ⟨"q", "", "", "", "", "tomorrow", "", 0, "", ""⟩ (fun _ => "") ⟨5000, 0⟩
    (.invalidTimeExpression "tomorrow") (fun _ _ _ _ _ => .ok 7)
    (fun _ _ => .ok "out") (by decide) rfl

/-- C9: the query handler applies an explicit limit only when it is
positive, truncating it toward zero (5.9 becomes 5); a zero or negative
(including absent, which decodes to 0) limit falls back to the default 100,
and the handler behaves exactly as if 100 had been supplied — no error is
raised by this step. -/
theorem limit_default_spec :
    (∀ L : Rat, 0 < L → resolveLimit L = ratTrunc L) ∧
    (∀ L : Rat, L ≤ 0 → resolveLimit L = 100) ∧
    resolveLimit (59 / 10 : Rat) = 5 ∧
    (∀ (ρ : Type) (req : LokiQueryRequest) (env : String → String)
      (now : AbsTime) (p : String → AbsTime → Except Err AbsTime)
      (exec : String → String → String → String → String → Except Err ρ)
      (fmtF : ρ → String → Except Err String),
      req.limit ≤ 0 →
      HandleLokiQueryProtocol (.ok req) env now p exec fmtF =
        HandleLokiQueryProtocol (.ok { req with limit := 100 }) env now p
          exec fmtF) := by
  refine ⟨fun L hL => by simp [resolveLimit, hL], fun L hL => ?_, ?_, ?_⟩
  · simp [resolveLimit, not_lt.mpr hL]
  · norm_num [resolveLimit, ratTrunc]
  · intro ρ req env now p exec fmtF hL
    have h1 : resolveLimit req.limit = 100 := by
      simp [resolveLimit, not_lt.mpr hL]
    have h2 : resolveLimit 100 = 100 := by norm_num [resolveLimit, ratTrunc]
    simp [HandleLokiQueryProtocol, h1, h2]

/-- Concrete instances of C9: limit 5.9 truncates to 5 and limit −3
falls back to 100. -/
theorem limit_default_spec_witness :
    resolveLimit (59 / 10 : Rat) = 5 ∧ resolveLimit (-3 : Rat) = 100 :=
  ⟨limit_default_spec.2.2.1,
   limit_default_spec.2.1 (-3) (by norm_num)⟩

/-- `sub` occurs contiguously inside `u`. -/
def listContains (u sub : List Char) : Prop := ∃ pre suf, u = pre ++ sub ++ suf

theorem listContains_of_parts (A B C : List Char) :
    listContains (A ++ B ++ C) B := ⟨A, C, rfl⟩

theorem buildLokiQueryURL_ok (base query : String) (start stop limit : Int)
    (u : String) (h : buildLokiQueryURL base query start stop limit = .ok u) :
    u = base ++ "/loki/api/v1/query_range?query=" ++ urlEncode query ++
      "&" ++ ("start=" ++ toString (start * 1000000000)) ++
      "&" ++ ("end=" ++ toString (stop * 1000000000)) ++
      "&limit=" ++ toString limit := by
  unfold buildLokiQueryURL at h
  split_ifs at h with hv
  injection h with h
  exact h.symm

theorem buildLokiLabelsURL_ok (base : String) (start stop : Int)
    (u : String) (h : buildLokiLabelsURL base start stop = .ok u) :
    u = base ++ "/loki/api/v1/labels?" ++
      ("start=" ++ toString (start * 1000000000)) ++
      "&" ++ ("end=" ++ toString (stop * 1000000000)) := by
  unfold buildLokiLabelsURL at h
  split_ifs at h with hv
  injection h with h
  exact h.symm

theorem buildLokiLabelValuesURL_ok (base label : String) (start stop : Int)
    (u : String) (h : buildLokiLabelValuesURL base label start stop = .ok u) :
    u = base ++ "/loki/api/v1/label/" ++ urlEncode label ++ "/values?" ++
      ("start=" ++ toString (start * 1000000000)) ++
      "&" ++ ("end=" ++ toString (stop * 1000000000)) := by
  unfold buildLokiLabelValuesURL at h
  split_ifs at h with hv
  injection h with h
  exact h.symm

theorem queryURL_contains (base query : String) (start stop limit : Int)
    (u : String) (h : buildLokiQueryURL base query start stop limit = .ok u) :
    listContains u.data ("start=" ++ toString (start * 1000000000)).data ∧
    listContains u.data ("end=" ++ toString (stop * 1000000000)).data := by
  rw [buildLokiQueryURL_ok base query start stop limit u h]
  constructor
  · refine ⟨(base ++ "/loki/api/v1/query_range?query=" ++ urlEncode query ++
      "&").data,
      ("&" ++ ("end=" ++ toString (stop * 1000000000)) ++ "&limit=" ++
        toString limit).data, ?_⟩
    simp [List.append_assoc]
  · refine ⟨(base ++ "/loki/api/v1/query_range?query=" ++ urlEncode query ++
      "&" ++ ("start=" ++ toString (start * 1000000000)) ++ "&").data,
      ("&limit=" ++ toString limit).data, ?_⟩
    simp [List.append_assoc]

theorem labelsURL_contains (base : String) (start stop : Int)
    (u : String) (h : buildLokiLabelsURL base start stop = .ok u) :
    listContains u.data ("start=" ++ toString (start * 1000000000)).data ∧
    listContains u.data ("end=" ++ toString (stop * 1000000000)).data := by
  rw [buildLokiLabelsURL_ok base start stop u h]
  constructor
  · refine ⟨(base ++ "/loki/api/v1/labels?").data,
      ("&" ++ ("end=" ++ toString (stop * 1000000000))).data, ?_⟩
    simp [List.append_assoc]
  · refine ⟨(base ++ "/loki/api/v1/labels?" ++
      ("start=" ++ toString (start * 1000000000)) ++ "&").data, [], ?_⟩
    simp [List.append_assoc]

theorem labelValuesURL_contains (base label : String) (start stop : Int)
    (u : String) (h : buildLokiLabelValuesURL base label start stop = .ok u) :
    listContains u.data ("start=" ++ toString (start * 1000000000)).data ∧
    listContains u.data ("end=" ++ toString (stop * 1000000000)).data := by
  rw [buildLokiLabelValuesURL_ok base label start stop u h]
  constructor
  · refine ⟨(base ++ "/loki/api/v1/label/" ++ urlEncode label ++
      "/values?").data,
      ("&" ++ ("end=" ++ toString (stop * 1000000000))).data, ?_⟩
    simp [List.append_assoc]
  · refine ⟨(base ++ "/loki/api/v1/label/" ++ urlEncode label ++ "/values?" ++
      ("start=" ++ toString (start * 1000000000)) ++ "&").data, [], ?_⟩
    simp [List.append_assoc]

/-- C5: for all three operations, every start/end seconds bound `S` given to
the URL builder appears in the built URL as the decimal string of
`S * 1_000_000_000` (nanoseconds). -/
theorem built_urls_encode_nanoseconds :
    (∀ (base query : String) (start stop limit : Int) (u : String),
      buildLokiQueryURL base query start stop limit = .ok u →
      listContains u.data ("start=" ++ toString (start * 1000000000)).data ∧
      listContains u.data ("end=" ++ toString (stop * 1000000000)).data) ∧
    (∀ (base : String) (start stop : Int) (u : String),
      buildLokiLabelsURL base start stop = .ok u →
      listContains u.data ("start=" ++ toString (start * 1000000000)).data ∧
      listContains u.data ("end=" ++ toString (stop * 1000000000)).data) ∧
    (∀ (base label : String) (start stop : Int) (u : String),
      buildLokiLabelValuesURL base label start stop = .ok u →
      listContains u.data ("start=" ++ toString (start * 1000000000)).data ∧
      listContains u.data ("end=" ++ toString (stop * 1000000000)).data) :=
  ⟨queryURL_contains, labelsURL_contains, labelValuesURL_contains⟩

/-- Concrete instance of C5: bounds 2 and 3 appear as 2000000000 and
3000000000 in a built query URL. -/
theorem built_urls_encode_nanoseconds_witness :
    listContains
      ("http://h/loki/api/v1/query_range?query=q&start=2000000000&end=3000000000&limit=5" : String).data
      ("start=" ++ toString ((2 : Int) * 1000000000)).data ∧
    listContains
      ("http://h/loki/api/v1/query_range?query=q&start=2000000000&end=3000000000&limit=5" : String).data
      ("end=" ++ toString ((3 : Int) * 1000000000)).data :=
  built_urls_encode_nanoseconds.1 "http://h" "q" 2 3 5 _ rfl

/-- C10: every bound a handler passes to a URL builder is a whole number of
Unix seconds — a non-empty time expression is truncated to its seconds
component (`.Unix()`), discarding sub-second precision — and for all three
builders both the start and the end nanosecond timestamps in a built URL are
exactly `S * 1_000_000_000` for the resolved bound `S`, hence integer
multiples of 1_000_000_000. -/
theorem bounds_are_whole_seconds :
    (∀ (arg : String) (now : AbsTime) (d s : Int),
      resolveBound parseTime arg now d = .ok s →
      (arg = "" ∧ s = d) ∨
        (∃ t : AbsTime, parseTime arg now = .ok t ∧ s = t.sec)) ∧
    (∀ (base query : String) (start stop limit : Int) (u : String),
      buildLokiQueryURL base query start stop limit = .ok u →
      (listContains u.data ("start=" ++ toString (start * 1000000000)).data ∧
        (1000000000 : Int) ∣ start * 1000000000) ∧
      (listContains u.data ("end=" ++ toString (stop * 1000000000)).data ∧
        (1000000000 : Int) ∣ stop * 1000000000)) ∧
    (∀ (base : String) (start stop : Int) (u : String),
      buildLokiLabelsURL base start stop = .ok u →
      (listContains u.data ("start=" ++ toString (start * 1000000000)).data ∧
        (1000000000 : Int) ∣ start * 1000000000) ∧
      (listContains u.data ("end=" ++ toString (stop * 1000000000)).data ∧
        (1000000000 : Int) ∣ stop * 1000000000)) ∧
    (∀ (base label : String) (start stop : Int) (u : String),
      buildLokiLabelValuesURL base label start stop = .ok u →
      (listContains u.data ("start=" ++ toString (start * 1000000000)).data ∧
        (1000000000 : Int) ∣ start * 1000000000) ∧
      (listContains u.data ("end=" ++ toString (stop * 1000000000)).data ∧
        (1000000000 : Int) ∣ stop * 1000000000)) := by
  refine ⟨?_, ?_, ?_, ?_⟩
  · intro arg now d s h
    unfold resolveBound at h
    by_cases ha : arg = ""
    · rw [if_pos ha] at h
      injection h with h
      exact Or.inl ⟨ha, h.symm⟩
    · rw [if_neg ha] at h
      cases hp : parseTime arg now with
      | ok t =>
        rw [hp] at h
        injection h with h
        exact Or.inr ⟨t, rfl, h.symm⟩
      | error e => rw [hp] at h; simp at h
  · intro base query start stop limit u h
    obtain ⟨hs, he⟩ := queryURL_contains base query start stop limit u h
    exact ⟨⟨hs, Dvd.intro start (mul_comm 1000000000 start)⟩,
      ⟨he, Dvd.intro stop (mul_comm 1000000000 stop)⟩⟩
  · intro base start stop u h
    obtain ⟨hs, he⟩ := labelsURL_contains base start stop u h
    exact ⟨⟨hs, Dvd.intro start (mul_comm 1000000000 start)⟩,
      ⟨he, Dvd.intro stop (mul_comm 1000000000 stop)⟩⟩
  · intro base label start stop u h
    obtain ⟨hs, he⟩ := labelValuesURL_contains base label start stop u h
    exact ⟨⟨hs, Dvd.intro start (mul_comm 1000000000 start)⟩,
      ⟨he, Dvd.intro stop (mul_comm 1000000000 stop)⟩⟩

/-- Concrete instances of C10: a sub-second absolute start time is truncated
to whole seconds by the bound-resolution step, and a concrete built labels
URL carries both bounds as multiples of 1e9. -/
theorem bounds_are_whole_seconds_witness :
    ((("2024-01-02T03:04:05.5Z" : String) = "" ∧ (1704164645 : Int) = 0) ∨
      (∃ t : AbsTime, parseTime "2024-01-02T03:04:05.5Z" ⟨0, 0⟩ = .ok t ∧
        (1704164645 : Int) = t.sec)) ∧
    ((listContains
        ("http://h/loki/api/v1/labels?start=2000000000&end=3000000000" : String).data
        ("start=" ++ toString ((2 : Int) * 1000000000)).data ∧
      (1000000000 : Int) ∣ (2 : Int) * 1000000000) ∧
     (listContains
        ("http://h/loki/api/v1/labels?start=2000000000&end=3000000000" : String).data
        ("end=" ++ toString ((3 : Int) * 1000000000)).data ∧
      (1000000000 : Int) ∣ (3 : Int) * 1000000000)) :=
  ⟨bounds_are_whole_seconds.1 "2024-01-02T03:04:05.5Z" ⟨0, 0⟩ 0 1704164645 rfl,
   bounds_are_whole_seconds.2.2.1 "http://h" 2 3 _ rfl⟩

/-- C6: the outbound backend request carries only the bearer-token header
when a token is configured (even if username/password are also configured),
basic authentication when the token is empty and the username non-empty,
and no authorization header when both are empty. -/
theorem auth_precedence (url username password token orgID : String) :
    (token ≠ "" →
      (newLokiRequest url username password token orgID).authorization =
        some (.bearer token)) ∧
    (token = "" → username ≠ "" →
      (newLokiRequest url username password token orgID).authorization =
        some (.basic username password)) ∧
    (token = "" → username = "" →
      (newLokiRequest url username password token orgID).authorization =
        none) := by
  refine ⟨fun ht => ?_, fun ht hu => ?_, fun ht hu => ?_⟩ <;>
    simp [newLokiRequest, *]

/-- Concrete instances of C6: with both token and username/password present
only the bearer header is set; with only username/password, basic auth; with
neither, no header. -/
theorem auth_precedence_witness :
    (newLokiRequest "u" "user" "pw" "tok" "").authorization =
      some (.bearer "tok") ∧
    (newLokiRequest "u" "user" "pw" "" "").authorization =
      some (.basic "user" "pw") ∧
    (newLokiRequest "u" "" "" "" "").authorization = none :=
  ⟨(auth_precedence "u" "user" "pw" "tok" "").1 (by decide),
   (auth_precedence "u" "user" "pw" "" "").2.1 rfl (by decide),
   (auth_precedence "u" "" "" "" "").2.2 rfl rfl⟩

/-- C7: for each of the three operations, an argument-decode failure is
returned unchanged, and the handler returns a success exactly when every
pipeline step (time resolution, URL build, backend call, formatting)
succeeds — in which case the result is exactly one text content block
holding the formatted string.  Contrapositively, any step failure yields an
error and never a success result. -/
theorem pipeline_propagation :
    (∀ (ρ : Type) (e : Err) (env : String → String) (now : AbsTime)
      (p : String → AbsTime → Except Err AbsTime)
      (exec : String → String → String → String → String → Except Err ρ)
      (fmtF : ρ → String → Except Err String),
      HandleLokiQueryProtocol (.error e) env now p exec fmtF = .error e) ∧
    (∀ (ρ : Type) (req : LokiQueryRequest) (env : String → String)
      (now : AbsTime) (p : String → AbsTime → Except Err AbsTime)
      (exec : String → String → String → String → String → Except Err ρ)
      (fmtF : ρ → String → Except Err String) (r : CallToolResult),
      HandleLokiQueryProtocol (.ok req) env now p exec fmtF = .ok r ↔
      ∃ (start stop : Int) (url : String) (result : ρ) (s : String),
        resolveBound p req.start now (now.sec - 3600) = .ok start ∧
        resolveBound p req.stop now now.sec = .ok stop ∧
        buildLokiQueryURL (getEnvOrDefault req.url EnvLokiURL DefaultLokiURL env)
          req.query start stop (resolveLimit req.limit) = .ok url ∧
        exec url (getEnvOrDefault req.username EnvLokiUsername "" env)
          (getEnvOrDefault req.password EnvLokiPassword "" env)
          (getEnvOrDefault req.token EnvLokiToken "" env)
          (getEnvOrDefault req.org EnvLokiOrgID "" env) = .ok result ∧
        fmtF result (if req.format = "" then "raw" else req.format) = .ok s ∧
        r = ⟨[⟨"text", s⟩]⟩) ∧
    (∀ (ρ : Type) (e : Err) (env : String → String) (now : AbsTime)
      (p : String → AbsTime → Except Err AbsTime)
      (exec : String → String → String → String → String → Except Err ρ)
      (fmtF : ρ → String → Except Err String),
      HandleLokiLabelNamesProtocol (.error e) env now p exec fmtF =
        .error e) ∧
    (∀ (ρ : Type) (req : LokiLabelNamesRequest) (env : String → String)
      (now : AbsTime) (p : String → AbsTime → Except Err AbsTime)
      (exec : String → String → String → String → String → Except Err ρ)
      (fmtF : ρ → String → Except Err String) (r : CallToolResult),
      HandleLokiLabelNamesProtocol (.ok req) env now p exec fmtF = .ok r ↔
      ∃ (start stop : Int) (url : String) (result : ρ) (s : String),
        resolveBound p req.start now (now.sec - 3600) = .ok start ∧
        resolveBound p req.stop now now.sec = .ok stop ∧
        buildLokiLabelsURL (getEnvOrDefault req.url EnvLokiURL DefaultLokiURL env)
          start stop = .ok url ∧
        exec url (getEnvOrDefault req.username EnvLokiUsername "" env)
          (getEnvOrDefault req.password EnvLokiPassword "" env)
          (getEnvOrDefault req.token EnvLokiToken "" env)
          (getEnvOrDefault req.org EnvLokiOrgID "" env) = .ok result ∧
        fmtF result (if req.format = "" then "raw" else req.format) = .ok s ∧
        r = ⟨[⟨"text", s⟩]⟩) ∧
    (∀ (ρ : Type) (e : Err) (env : String → String) (now : AbsTime)
      (p : String → AbsTime → Except Err AbsTime)
      (exec : String → String → String → String → String → Except Err ρ)
      (fmtF : ρ → String → Except Err String),
      HandleLokiLabelValuesProtocol (.error e) env now p exec fmtF =
        .error e) ∧
    (∀ (ρ : Type) (req : LokiLabelValuesRequest) (env : String → String)
      (now : AbsTime) (p : String → AbsTime → Except Err AbsTime)
      (exec : String → String → String → String → String → Except Err ρ)
      (fmtF : ρ → String → Except Err String) (r : CallToolResult),
      HandleLokiLabelValuesProtocol (.ok req) env now p exec fmtF = .ok r ↔
      ∃ (start stop : Int) (url : String) (result : ρ) (s : String),
        resolveBound p req.start now (now.sec - 3600) = .ok start ∧
        resolveBound p req.stop now now.sec = .ok stop ∧
        buildLokiLabelValuesURL
          (getEnvOrDefault req.url EnvLokiURL DefaultLokiURL env)
          req.label start stop = .ok url ∧
        exec url (getEnvOrDefault req.username EnvLokiUsername "" env)
          (getEnvOrDefault req.password EnvLokiPassword "" env)
          (getEnvOrDefault req.token EnvLokiToken "" env)
          (getEnvOrDefault req.org EnvLokiOrgID "" env) = .ok result ∧
        fmtF result (if req.format = "" then "raw" else req.format) = .ok s ∧
        r = ⟨[⟨"text", s⟩]⟩) := by
  refine ⟨fun ρ e env now p exec fmtF => rfl, ?_,
    fun ρ e env now p exec fmtF => rfl, ?_,
    fun ρ e env now p exec fmtF => rfl, ?_⟩
  · intro ρ req env now p exec fmtF r
    unfold HandleLokiQueryProtocol
    cases h1 : resolveBound p req.start now (now.sec - 3600) with
    | error e => simp [h1]
    | ok start =>
      cases h2 : resolveBound p req.stop now now.sec with
      | error e => simp [h1, h2]
      | ok stop =>
        cases h3 : buildLokiQueryURL
            (getEnvOrDefault req.url EnvLokiURL DefaultLokiURL env) req.query
            start stop (resolveLimit req.limit) with
        | error e => simp [h1, h2, h3]
        | ok url =>
          cases h4 : exec url (getEnvOrDefault req.username EnvLokiUsername "" env)
              (getEnvOrDefault req.password EnvLokiPassword "" env)
              (getEnvOrDefault req.token EnvLokiToken "" env)
              (getEnvOrDefault req.org EnvLokiOrgID "" env) with
          | error e => simp [h1, h2, h3, h4]
          | ok result =>
            cases h5 : fmtF result (if req.format = "" then "raw" else req.format) with
            | error e => simp [h1, h2, h3, h4, h5]
            | ok s =>
              simp [h1, h2, h3, h4, h5]
              exact eq_comm
  · intro ρ req env now p exec fmtF r
    unfold HandleLokiLabelNamesProtocol
    cases h1 : resolveBound p req.start now (now.sec - 3600) with
    | error e => simp [h1]
    | ok start =>
      cases h2 : resolveBound p req.stop now now.sec with
      | error e => simp [h1, h2]
      | ok stop =>
        cases h3 : buildLokiLabelsURL
            (getEnvOrDefault req.url EnvLokiURL DefaultLokiURL env)
            start stop with
        | error e => simp [h1, h2, h3]
        | ok url =>
          cases h4 : exec url (getEnvOrDefault req.username EnvLokiUsername "" env)
              (getEnvOrDefault req.password EnvLokiPassword "" env)
              (getEnvOrDefault req.token EnvLokiToken "" env)
              (getEnvOrDefault req.org EnvLokiOrgID "" env) with
          | error e => simp [h1, h2, h3, h4]
          | ok result =>
            cases h5 : fmtF result (if req.format = "" then "raw" else req.format) with
            | error e => simp [h1, h2, h3, h4, h5]
            | ok s =>
              simp [h1, h2, h3, h4, h5]
              exact eq_comm
  · intro ρ req env now p exec fmtF r
    unfold HandleLokiLabelValuesProtocol
    cases h1 : resolveBound p req.start now (now.sec - 3600) with
    | error e => simp [h1]
    | ok start =>
      cases h2 : resolveBound p req.stop now now.sec with
      | error e => simp [h1, h2]
      | ok stop =>
        cases h3 : buildLokiLabelValuesURL
            (getEnvOrDefault req.url EnvLokiURL DefaultLokiURL env)
            req.label start stop with
        | error e => simp [h1, h2, h3]
        | ok url =>
          cases h4 : exec url (getEnvOrDefault req.username EnvLokiUsername "" env)
              (getEnvOrDefault req.password EnvLokiPassword "" env)
              (getEnvOrDefault req.token EnvLokiToken "" env)
              (getEnvOrDefault req.org EnvLokiOrgID "" env) with
          | error e => simp [h1, h2, h3, h4]
          | ok result =>
            cases h5 : fmtF result (if req.format = "" then "raw" else req.format) with
            | error e => simp [h1, h2, h3, h4, h5]
            | ok s =>
              simp [h1, h2, h3, h4, h5]
              exact eq_comm

/-- Concrete instance of C7: with every pipeline step succeeding, the query
handler returns exactly one text content block with the formatted string. -/
theorem pipeline_propagation_witness :
    HandleLokiQueryProtocol (ρ := Nat)
      (.ok ⟨"q", "http://h", "", "", "", "", "", 0, "", ""⟩) (fun _ => "")
      ⟨5000, 0⟩ parseTime (fun _ _ _ _ _ => .ok 7) (fun _ _ => .ok "out") =
      .ok ⟨[⟨"text", "out"⟩]⟩ :=
  (pipeline_propagation.2.1 Nat ⟨"q", "http://h", "", "", "", "", "", 0, "", ""⟩
    (fun _ => "") ⟨5000, 0⟩ parseTime (fun _ _ _ _ _ => .ok 7)
    (fun _ _ => .ok "out") ⟨[⟨"text", "out"⟩]⟩).mpr
    ⟨1400, 5000, _, 7, "out", rfl, rfl, rfl, rfl, rfl, rfl⟩

theorem pStrAux_escList (cs : List Char) : ∀ (acc rest : List Char),
    pStrAux acc (escList cs ++ '"' :: rest) =
      some (String.mk (acc.reverse ++ cs), rest) := by
  induction cs with
  | nil =>
    intro acc rest
    simp only [escList, List.nil_append]
    unfold pStrAux
    simp
  | cons c cs ih =>
    intro acc rest
    by_cases h1 : c = '"'
    · subst h1
      simp only [escList, List.cons_append, List.append_assoc]
      rw [show escapeChar '"' = ['\\', '"'] from rfl]
      simp only [List.cons_append, List.nil_append]
      unfold pStrAux
      simp [ih, List.append_assoc]
    · by_cases h2 : c = '\\'
      · subst h2
        simp only [escList, List.cons_append, List.append_assoc]
        rw [show escapeChar '\\' = ['\\', '\\'] from rfl]
        simp only [List.cons_append, List.nil_append]
        unfold pStrAux
        simp [ih, List.append_assoc]
      · by_cases h3 : c = '\n'
        · subst h3
          simp only [escList, List.cons_append, List.append_assoc]
          rw [show escapeChar '\n' = ['\\', 'n'] from rfl]
          simp only [List.cons_append, List.nil_append]
          unfold pStrAux
          simp [ih, List.append_assoc]
        · by_cases h4 : c = '\t'
          · subst h4
            simp only [escList, List.cons_append, List.append_assoc]
            rw [show escapeChar '\t' = ['\\', 't'] from rfl]
            simp only [List.cons_append, List.nil_append]
            unfold pStrAux
            simp [ih, List.append_assoc]
          · by_cases h5 : c = '\r'
            · subst h5
              simp only [escList, List.cons_append, List.append_assoc]
              rw [show escapeChar '\r' = ['\\', 'r'] from rfl]
              simp only [List.cons_append, List.nil_append]
              unfold pStrAux
              simp [ih, List.append_assoc]
            · simp only [escList, List.cons_append, List.append_assoc]
              rw [show escapeChar c = [c] from by
                simp [escapeChar, h1, h2, h3, h4, h5]]
              simp only [List.cons_append, List.nil_append]
              unfold pStrAux
              simp [h1, h2, ih, List.append_assoc]

theorem pStr_enc (s : String) (rest : List Char) :
    pStr (encStrL s ++ rest) = some (s, rest) := by
  show pStr ('"' :: (escList s.data ++ ['"']) ++ rest) = some (s, rest)
  unfold pStr
  simp only [List.cons_append, List.append_assoc, List.singleton_append,
    List.nil_append, if_true]
  rw [pStrAux_escList s.data [] rest]
  simp

theorem pChar_enc (c : Char) (rest : List Char) :
    pChar c (c :: rest) = some rest := by
  simp [pChar]

theorem pKey_enc (s : String) (rest : List Char) :
    pKey s (encStrL s ++ rest) = some rest := by
  simp [pKey, pStr_enc]

theorem pKV_enc (kv : String × String) (rest : List Char) :
    pKV (encKV kv ++ rest) = some (kv, rest) := by
  show pKV ((encStrL kv.1 ++ ':' :: encKV.encKV2 kv.2) ++ rest) =
    some (kv, rest)
  simp [pKV, encKV.encKV2, List.append_assoc, pStr_enc, pChar_enc]

theorem pPair_enc (pr : String × String) (rest : List Char) :
    pPair (encPair pr ++ rest) = some (pr, rest) := by
  show pPair ('[' :: (encStrL pr.1 ++ ',' :: (encStrL pr.2 ++ [']'])) ++ rest) =
    some (pr, rest)
  simp [pPair, List.cons_append, List.append_assoc, pStr_enc, pChar_enc]

theorem encKV_head (kv : String × String) : ∃ t, encKV kv = '"' :: t :=
  ⟨_, rfl⟩

theorem encPair_head (pr : String × String) : ∃ t, encPair pr = '[' :: t :=
  ⟨_, rfl⟩

theorem encEntry_head (e : StreamEntry) : ∃ t, encEntry e = '{' :: t :=
  ⟨_, rfl⟩

theorem pSepRest_enc {α : Type} (pe : List Char → Option (α × List Char))
    (f : α → List Char) (close : Char) (hclose : close ≠ ',') :
    ∀ (xs : List α), (∀ x ∈ xs, ∀ r, pe (f x ++ r) = some (x, r)) →
    ∀ (fuel : ℕ), xs.length ≤ fuel → ∀ (acc : List α) (rest : List Char),
      pSepRest pe close fuel acc (encSepTail f xs ++ close :: rest) =
        some (acc.reverse ++ xs, rest) := by
  intro xs
  induction xs with
  | nil =>
    intro _ fuel _ acc rest
    simp only [encSepTail, List.nil_append]
    unfold pSepRest
    simp
  | cons x xs ih =>
    intro hpe fuel hfuel acc rest
    simp only [encSepTail, List.cons_append, List.append_assoc]
    unfold pSepRest
    rw [if_neg (fun h => hclose h.symm), if_pos rfl]
    cases fuel with
    | zero => simp at hfuel
    | succ fuel' =>
      simp only []
      rw [hpe x (List.mem_cons_self x xs) (encSepTail f xs ++ close :: rest)]
      simp only []
      rw [ih (fun y hy => hpe y (List.mem_cons_of_mem x hy)) fuel'
        (Nat.le_of_succ_le_succ (by simpa using hfuel)) (x :: acc) rest]
      simp

theorem pSepList_enc {α : Type} (pe : List Char → Option (α × List Char))
    (f : α → List Char) (close : Char) (hclose : close ≠ ',')
    (xs : List α) (hpe : ∀ x ∈ xs, ∀ r, pe (f x ++ r) = some (x, r))
    (hhead : ∀ x ∈ xs, ∃ c t, f x = c :: t ∧ c ≠ close)
    (fuel : ℕ) (hfuel : xs.length ≤ fuel) (rest : List Char) :
    pSepList pe close fuel (encSep f xs ++ close :: rest) = some (xs, rest) := by
  cases xs with
  | nil => simp [encSep, pSepList]
  | cons x xs =>
    obtain ⟨c, t, hft, hcc⟩ := hhead x (List.mem_cons_self x xs)
    simp only [encSep, List.append_assoc]
    rw [hft]
    simp only [List.cons_append]
    unfold pSepList
    simp only []
    rw [if_neg hcc]
    rw [show (c :: (t ++ (encSepTail f xs ++ close :: rest)) : List Char) =
      f x ++ (encSepTail f xs ++ close :: rest) from by rw [hft]; simp]
    rw [hpe x (List.mem_cons_self x xs)]
    simp only []
    rw [pSepRest_enc pe f close hclose xs
      (fun y hy => hpe y (List.mem_cons_of_mem x hy)) fuel
      (Nat.le_of_succ_le (by simpa using Nat.succ_le_succ hfuel)) [x] rest]
    simp

theorem pObj_enc (kvs : List (String × String)) (fuel : ℕ)
    (hfuel : kvs.length ≤ fuel) (rest : List Char) :
    pObj fuel (encObj kvs ++ rest) = some (kvs, rest) := by
  show pObj fuel ('{' :: (encSep encKV kvs ++ ['}']) ++ rest) = some (kvs, rest)
  simp only [pObj, List.cons_append, List.append_assoc, List.singleton_append]
  rw [pChar_enc]
  simp only [Option.some_bind]
  exact pSepList_enc pKV encKV '}' (by decide) kvs
    (fun kv _ r => pKV_enc kv r)
    (fun kv _ => by
      obtain ⟨t, ht⟩ := encKV_head kv
      exact ⟨'"', t, ht, by decide⟩)
    fuel hfuel rest

theorem pValuesArr_enc (vs : List (String × String)) (fuel : ℕ)
    (hfuel : vs.length ≤ fuel) (rest : List Char) :
    pValuesArr fuel (encArr encPair vs ++ rest) = some (vs, rest) := by
  show pValuesArr fuel ('[' :: (encSep encPair vs ++ [']']) ++ rest) =
    some (vs, rest)
  simp only [pValuesArr, List.cons_append, List.append_assoc,
    List.singleton_append]
  rw [pChar_enc]
  simp only [Option.some_bind]
  exact pSepList_enc pPair encPair ']' (by decide) vs
    (fun pr _ r => pPair_enc pr r)
    (fun pr _ => by
      obtain ⟨t, ht⟩ := encPair_head pr
      exact ⟨'[', t, ht, by decide⟩)
    fuel hfuel rest

theorem pEntry_enc (e : StreamEntry) (fuel : ℕ)
    (h1 : e.stream.length ≤ fuel) (h2 : e.values.length ≤ fuel)
    (rest : List Char) :
    pEntry fuel (encEntry e ++ rest) = some (e, rest) := by
  show pEntry fuel
    ('{' :: (encStrL "stream" ++ ':' :: (encObj e.stream ++
      ',' :: (encStrL "values" ++ ':' :: (encArr encPair e.values ++ ['}'])))) ++
      rest) = some (e, rest)
  simp only [pEntry, List.cons_append, List.append_assoc,
    List.singleton_append]
  rw [pChar_enc]
  simp only [Option.some_bind]
  rw [pKey_enc]
  simp only [Option.some_bind]
  rw [pChar_enc]
  simp only [Option.some_bind]
  rw [pObj_enc e.stream fuel h1]
  simp only [Option.some_bind]
  rw [pChar_enc]
  simp only [Option.some_bind]
  rw [pKey_enc]
  simp only [Option.some_bind]
  rw [pChar_enc]
  simp only [Option.some_bind]
  rw [pValuesArr_enc e.values fuel h2]
  simp only [Option.some_bind]
  rw [pChar_enc]
  simp

theorem encKV_ne_nil (kv : String × String) : encKV kv ≠ [] := by
  obtain ⟨t, ht⟩ := encKV_head kv
  simp [ht]

theorem encPair_ne_nil (pr : String × String) : encPair pr ≠ [] := by
  obtain ⟨t, ht⟩ := encPair_head pr
  simp [ht]

theorem encEntry_ne_nil (e : StreamEntry) : encEntry e ≠ [] := by
  obtain ⟨t, ht⟩ := encEntry_head e
  simp [ht]

theorem len_encSepTail {α : Type} (f : α → List Char) :
    ∀ xs : List α, xs.length ≤ (encSepTail f xs).length := by
  intro xs
  induction xs with
  | nil => simp [encSepTail]
  | cons x xs ih =>
    simp only [encSepTail, List.length_cons, List.length_append]
    omega

theorem len_encSep {α : Type} (f : α → List Char) (xs : List α)
    (hne : ∀ x ∈ xs, f x ≠ []) : xs.length ≤ (encSep f xs).length := by
  cases xs with
  | nil => simp [encSep]
  | cons x xs =>
    have h1 : 1 ≤ (f x).length :=
      List.length_pos.mpr (hne x (List.mem_cons_self x xs))
    have h2 := len_encSepTail f xs
    simp only [encSep, List.length_cons, List.length_append]
    omega

theorem mem_len_le_encSepTail {α : Type} (f : α → List Char) :
    ∀ (xs : List α), ∀ x ∈ xs, (f x).length ≤ (encSepTail f xs).length := by
  intro xs
  induction xs with
  | nil => simp
  | cons y ys ih =>
    intro x hx
    rcases List.mem_cons.mp hx with h | h
    · subst h
      simp only [encSepTail, List.length_cons, List.length_append]
      omega
    · have := ih x h
      simp only [encSepTail, List.length_cons, List.length_append]
      omega

theorem mem_len_le_encSep {α : Type} (f : α → List Char) (xs : List α)
    (x : α) (hx : x ∈ xs) : (f x).length ≤ (encSep f xs).length := by
  cases xs with
  | nil => simp at hx
  | cons y ys =>
    rcases List.mem_cons.mp hx with h | h
    · subst h
      simp only [encSep, List.length_append]
      omega
    · have := mem_len_le_encSepTail f ys x h
      simp only [encSep, List.length_append]
      omega

theorem stream_len_le_encEntry (e : StreamEntry) :
    e.stream.length ≤ (encEntry e).length := by
  have h1 := len_encSep encKV e.stream (fun kv _ => encKV_ne_nil kv)
  simp only [encEntry, encObj, List.length_cons, List.length_append]
  omega

theorem values_len_le_encEntry (e : StreamEntry) :
    e.values.length ≤ (encEntry e).length := by
  have h1 := len_encSep encPair e.values (fun pr _ => encPair_ne_nil pr)
  simp only [encEntry, encArr, List.length_cons, List.length_append]
  omega

theorem pResultTop_enc (r : BackendQueryResult) (fuel : ℕ)
    (h1 : r.result.length ≤ fuel)
    (h2 : ∀ e ∈ r.result, e.stream.length ≤ fuel)
    (h3 : ∀ e ∈ r.result, e.values.length ≤ fuel) (rest : List Char) :
    pResultTop fuel (encTopList r ++ rest) = some (r, rest) := by
  show pResultTop fuel
    ('{' :: (encStrL "status" ++ ':' :: (encStrL r.status ++
      ',' :: (encStrL "result" ++ ':' ::
        ('[' :: (encSep encEntry r.result ++ [']']) ++ ['}'])))) ++ rest) =
    some (r, rest)
  simp only [pResultTop, List.cons_append, List.append_assoc,
    List.singleton_append, List.nil_append]
  rw [pChar_enc]
  simp only [Option.some_bind]
  rw [pKey_enc]
  simp only [Option.some_bind]
  rw [pChar_enc]
  simp only [Option.some_bind]
  rw [pStr_enc]
  simp only [Option.some_bind]
  rw [pChar_enc]
  simp only [Option.some_bind]
  rw [pKey_enc]
  simp only [Option.some_bind]
  rw [pChar_enc]
  simp only [Option.some_bind]
  rw [pChar_enc]
  simp only [Option.some_bind]
  rw [pSepList_enc (pEntry fuel) encEntry ']' (by decide) r.result
    (fun e he rr => pEntry_enc e fuel (h2 e he) (h3 e he) rr)
    (fun e _ => by
      obtain ⟨t, ht⟩ := encEntry_head e
      exact ⟨'{', t, ht, by decide⟩)
    fuel h1 ('}' :: rest)]
  simp only [Option.some_bind]
  rw [pChar_enc]
  rfl

/-- C8: round-trip identity of the compact JSON formatter — formatting any
decoded backend query result in `json` mode and parsing the produced string
back as JSON yields a structure equal to the original decoded object. -/
theorem json_format_roundtrip (r : BackendQueryResult) :
    decodeLokiResultsJson (formatLokiResultsJson r) = some r := by
  unfold decodeLokiResultsJson
  have hdata : (formatLokiResultsJson r).data = encTopList r := rfl
  rw [hdata]
  have hb1 : r.result.length ≤ (encTopList r).length := by
    have h := len_encSep encEntry r.result (fun e _ => encEntry_ne_nil e)
    simp only [encTopList, encArr, List.length_cons, List.length_append]
    omega
  have hb2 : ∀ e ∈ r.result, e.stream.length ≤ (encTopList r).length := by
    intro e he
    have ha := stream_len_le_encEntry e
    have hm := mem_len_le_encSep encEntry r.result e he
    simp only [encTopList, encArr, List.length_cons, List.length_append]
    omega
  have hb3 : ∀ e ∈ r.result, e.values.length ≤ (encTopList r).length := by
    intro e he
    have ha := values_len_le_encEntry e
    have hm := mem_len_le_encSep encEntry r.result e he
    simp only [encTopList, encArr, List.length_cons, List.length_append]
    omega
  have hp := pResultTop_enc r (encTopList r).length hb1 hb2 hb3 []
  rw [List.append_nil] at hp
  rw [hp]
